import Mathlib

/-!
Verification of the MaidSafe routing core (routing table, group-range
predicate, pending-response timer, group send) against its specification.

The repository ships the public headers (routing_api.h, network_utils.h,
cache_manager.h) and the routing-table unit tests; the implementation
files (routing_table.cc, timer.cc, routing.cc) are not part of the tree.
The definitions below therefore embed the data model of the headers and
model the missing operation bodies from the specification text, as noted
on each definition.  Identifiers are 512-bit values modelled as natural
numbers; XOR distance is natural-number xor.
-/

set_option maxRecDepth 10000

namespace MaidSafe.Routing

/-- A 512-bit node identifier, modelled as a natural number. -/
abbrev NodeId := Nat

/-- Number of identifier bits (the C++ NodeId is 512 bits). -/
def kKeySizeBits : Nat := 512

/-- Bit length computed with explicit fuel so that it reduces in the kernel. -/
def bitLenAux : Nat → Nat → Nat
  | 0, _ => 0
  | fuel + 1, n => if n = 0 then 0 else bitLenAux fuel (n >>> 1) + 1

/-- Bit length of an identifier (enough fuel for 512-bit values). -/
def bitLen (n : Nat) : Nat := bitLenAux kKeySizeBits n

/-- Number of common leading bits of two identifiers in a 512-bit space. -/
def commonLeadingBits (a b : NodeId) : Nat := kKeySizeBits - bitLen (a ^^^ b)

/-- Bucket index of a peer relative to the owner: common leading bits with own id. -/
def bucketIndexOf (own target : NodeId) : Nat := commonLeadingBits own target

/-- Configuration constants, following src's Parameters naming. -/
def Parameters.max_routing_table_size : Nat := 64

/-- The closest-neighbourhood size (CLOSEST_SIZE). -/
def Parameters.closest_nodes_size : Nat := 8

/-- The group size (GROUP_SIZE). -/
def Parameters.node_group_size : Nat := 4

/-- The per-bucket target (BUCKET_TARGET). -/
def Parameters.bucket_target_size : Nat := 1

/-- A routing-table entry: identifier plus whether its public key is a valid
(non-empty) key.  The remaining NodeInfo fields of node_info.h (endpoints,
nat type, connection state) play no part in the claims. -/
structure NodeInfo where
  node_id : NodeId
  public_key_valid : Bool
deriving DecidableEq, Repr

/-- The routing table: the owner's id (kNodeId_ in the C++ header) and the
sequence of vault peers. -/
structure RoutingTable where
  kNodeId : NodeId
  nodes : List NodeInfo
deriving DecidableEq, Repr

/-- The ids currently held in the table. -/
def peerIds (rt : RoutingTable) : List NodeId := rt.nodes.map NodeInfo.node_id

/-- A routing table holding no peers yet. -/
def emptyRoutingTable (own : NodeId) : RoutingTable := ⟨own, []⟩

/-- Comparison of two ids by XOR distance to a target. -/
def distLE (t : NodeId) (a b : NodeId) : Prop := t ^^^ a ≤ t ^^^ b

instance (t : NodeId) : DecidableRel (distLE t) := fun _ _ => Nat.decLe _ _

instance (t : NodeId) : IsTotal NodeId (distLE t) := ⟨fun a b => Nat.le_total (t ^^^ a) (t ^^^ b)⟩

instance (t : NodeId) : IsTrans NodeId (distLE t) := ⟨fun _ _ _ => Nat.le_trans⟩

/-- Modelled from the spec: the tests' SortFromTarget helper — order ids by
ascending XOR distance to the target (test_utils.cc is not in the tree). -/
def sortFromTarget (t : NodeId) (ids : List NodeId) : List NodeId :=
  List.insertionSort (distLE t) ids

/-- Whether a peer survives the exclusion filters of GetClosestNode. -/
def nodeQualifies (t : NodeId) (exclude : List NodeId) (ignoreExactMatch : Bool)
    (n : NodeInfo) : Bool :=
  !(exclude.contains n.node_id) && (!ignoreExactMatch || n.node_id != t)

/-- Modelled from the spec: RoutingTable::GetClosestNode (routing_table.cc is
not in the tree) — the peer minimising XOR distance to the target subject to
the exclude set and, when ignore_exact_match is set, id different from the
target; none models the empty NodeInfo sentinel. -/
def GetClosestNode (rt : RoutingTable) (t : NodeId) (exclude : List NodeId)
    (ignoreExactMatch : Bool) : Option NodeInfo :=
  (rt.nodes.filter (nodeQualifies t exclude ignoreExactMatch)).argmin
    (fun n => t ^^^ n.node_id)

/-- Number of table peers in the candidate's bucket. -/
def bucketCount (rt : RoutingTable) (n : NodeInfo) : Nat :=
  (rt.nodes.filter (fun p =>
    bucketIndexOf rt.kNodeId p.node_id == bucketIndexOf rt.kNodeId n.node_id)).length

/-- Whether the candidate, once inserted and ordered by XOR distance from the
owner, would appear within the closest CLOSEST_SIZE. -/
def wouldBeInClosest (rt : RoutingTable) (n : NodeInfo) : Bool :=
  decide (n.node_id ∈
    (sortFromTarget rt.kNodeId (n.node_id :: peerIds rt)).take Parameters.closest_nodes_size)

/-- Peers sharing the candidate's bucket that are not among the owner's
closest CLOSEST_SIZE peers — the pool an over-full table may evict from. -/
def evictionCandidates (rt : RoutingTable) (n : NodeInfo) : List NodeInfo :=
  rt.nodes.filter (fun p =>
    bucketIndexOf rt.kNodeId p.node_id == bucketIndexOf rt.kNodeId n.node_id &&
    !decide (p.node_id ∈
      (sortFromTarget rt.kNodeId (peerIds rt)).take Parameters.closest_nodes_size))

/-- The evictee for a full table: the furthest eviction candidate. -/
def evicteeOf (rt : RoutingTable) (n : NodeInfo) : Option NodeInfo :=
  (evictionCandidates rt n).argmax (fun p => rt.kNodeId ^^^ p.node_id)

/-- Insert a peer record. -/
def insertPeer (rt : RoutingTable) (n : NodeInfo) : RoutingTable :=
  { rt with nodes := n :: rt.nodes }

/-- Remove one peer record. -/
def removePeer (rt : RoutingTable) (e : NodeInfo) : RoutingTable :=
  { rt with nodes := rt.nodes.erase e }

/-- Modelled from the spec: the admission decision shared by AddNode and
CheckNode — id not self, id not already present, and either the table has
room with the candidate's bucket below target, or the candidate would land
within the closest CLOSEST_SIZE (a full table then also needing an evictee in
the candidate's bucket outside the closest set). -/
def admitNode (rt : RoutingTable) (n : NodeInfo) : Bool :=
  if n.node_id = rt.kNodeId then false
  else if n.node_id ∈ peerIds rt then false
  else if rt.nodes.length < Parameters.max_routing_table_size ∧
      bucketCount rt n < Parameters.bucket_target_size then true
  else if wouldBeInClosest rt n then
    if rt.nodes.length < Parameters.max_routing_table_size then true
    else (evicteeOf rt n).isSome
  else false

/-- Modelled from the spec: the shared body of RoutingTable::AddNode and
RoutingTable::CheckNode (routing_table.cc is not in the tree).  With remove
set the admitted candidate is actually inserted, evicting the furthest
out-of-closest bucket peer when the table is full; without it the admission
decision alone is returned.  Only the inserting path validates the public
key. -/
def AddOrCheckNode (rt : RoutingTable) (n : NodeInfo) (remove : Bool) :
    Bool × RoutingTable :=
  if remove = true ∧ n.public_key_valid = false then (false, rt)
  else if admitNode rt n then
    (true,
      if remove then
        if rt.nodes.length < Parameters.max_routing_table_size then insertPeer rt n
        else
          match evicteeOf rt n with
          | some e => insertPeer (removePeer rt e) n
          | none => rt
      else rt)
  else (false, rt)

/-- Modelled from the spec: RoutingTable::AddNode. -/
def AddNode (rt : RoutingTable) (n : NodeInfo) : Bool × RoutingTable :=
  AddOrCheckNode rt n true

/-- Modelled from the spec: RoutingTable::CheckNode — the pure admission predicate. -/
def CheckNode (rt : RoutingTable) (n : NodeInfo) : Bool :=
  (AddOrCheckNode rt n false).1

/-- Modelled from the spec: RoutingTable::DropNode — remove the peer with the
given id if present. -/
def DropNode (rt : RoutingTable) (i : NodeId) : RoutingTable :=
  { rt with nodes := rt.nodes.filter (fun p => p.node_id != i) }

/-- One routing-table mutation, for stating invariants over operation sequences. -/
inductive TableOp where
  | add (n : NodeInfo)
  | drop (i : NodeId)

/-- Apply one mutation to the table. -/
def applyOp (rt : RoutingTable) : TableOp → RoutingTable
  | .add n => (AddNode rt n).2
  | .drop i => DropNode rt i

/-- The table invariant of the spec: bounded size, no duplicate ids, no self id. -/
def TableInvariant (rt : RoutingTable) : Prop :=
  rt.nodes.length ≤ Parameters.max_routing_table_size ∧
  (peerIds rt).Nodup ∧
  rt.kNodeId ∉ peerIds rt

/-- The three-valued group-range answer of routing_api.h. -/
inductive GroupRangeStatus where
  | kInRange
  | kInProximalRange
  | kOutwithRange
deriving DecidableEq, Repr

/-- The GROUP_SIZE ids closest to a group id known to this node: the owner's
own id together with the table peers, ordered by XOR distance to the group id. -/
def closestToGroup (rt : RoutingTable) (group_id : NodeId) : List NodeId :=
  (sortFromTarget group_id (rt.kNodeId :: peerIds rt)).take Parameters.node_group_size

/-- The owner's furthest close peer: the last of the CLOSEST_SIZE table peers
closest to the owner (none when the table is empty). -/
def FurthestCloseNode (rt : RoutingTable) : Option NodeId :=
  ((sortFromTarget rt.kNodeId (peerIds rt)).take Parameters.closest_nodes_size).getLast?

/-- Modelled from the spec: RoutingTable::IsNodeIdInGroupRange (routing_table.cc
is not in the tree) — out-of-range when the group id is the owner's id or the
node id equals the group id; in-range when the node id is among the GROUP_SIZE
ids closest to the group id known to the table, the owner included; proximal
when its distance to the group id is within the owner's distance to its
furthest close peer; out-of-range otherwise. -/
def IsNodeIdInGroupRange (rt : RoutingTable) (group_id node_id : NodeId) :
    GroupRangeStatus :=
  if group_id = rt.kNodeId ∨ node_id = group_id then .kOutwithRange
  else if node_id ∈ closestToGroup rt group_id then .kInRange
  else
    match FurthestCloseNode rt with
    | some f =>
        if node_id ^^^ group_id ≤ rt.kNodeId ^^^ f then .kInProximalRange
        else .kOutwithRange
    | none => .kOutwithRange

/-- Number of ids in a list strictly closer to the target than a given id. -/
def countCloserTo (t : NodeId) (ids : List NodeId) (x : NodeId) : Nat :=
  (ids.filter (fun y => t ^^^ y < t ^^^ x)).length

/-- The reference group-range definition, phrased as the claim phrases it:
membership of the GROUP_SIZE closest is expressed by counting the ids known to
the table (owner included) that lie strictly closer to the group id. -/
def groupRangeReference (rt : RoutingTable) (group_id node_id : NodeId) :
    GroupRangeStatus :=
  if group_id = rt.kNodeId ∨ node_id = group_id then .kOutwithRange
  else if node_id ∈ rt.kNodeId :: peerIds rt ∧
      countCloserTo group_id (rt.kNodeId :: peerIds rt) node_id <
        Parameters.node_group_size then .kInRange
  else
    match FurthestCloseNode rt with
    | some f =>
        if node_id ^^^ group_id ≤ rt.kNodeId ^^^ f then .kInProximalRange
        else .kOutwithRange
    | none => .kOutwithRange

/-- Whether the owner is itself among the GROUP_SIZE ids closest to the group id. -/
def ownInGroup (rt : RoutingTable) (group_id : NodeId) : Bool :=
  decide (rt.kNodeId ∈ closestToGroup rt group_id)

/-- Modelled from the spec: the two-argument Routing::IsNodeIdInGroupRange of
routing_api.h (routing.cc is not in the tree) — throws when the queried node id
is not this node's own id and this node is not itself part of the group;
otherwise answers the group-range predicate.  The error value models the
thrown exception. -/
def IsNodeIdInGroupRangeChecked (rt : RoutingTable) (group_id node_id : NodeId) :
    Except Unit GroupRangeStatus :=
  if node_id ≠ rt.kNodeId ∧ ownInGroup rt group_id = false then .error ()
  else .ok (IsNodeIdInGroupRange rt group_id node_id)

/-- The ids of the owner's closest CLOSEST_SIZE table peers, as a set.  The
close_node_replaced callback fires exactly when this set changes. -/
def closeGroup (rt : RoutingTable) : Finset NodeId :=
  ((sortFromTarget rt.kNodeId (peerIds rt)).take Parameters.closest_nodes_size).toFinset

/-- Number of close_node_replaced notifications fired while inserting the
given peers in order: per the spec a notification is emitted by an insertion
exactly when the closest-CLOSEST_SIZE membership set changed. -/
def notifyCount (rt : RoutingTable) : List NodeInfo → Nat
  | [] => 0
  | n :: rest =>
    (if closeGroup (AddNode rt n).2 = closeGroup rt then 0 else 1) +
      notifyCount (AddNode rt n).2 rest

/-- Whether every peer of the list is accepted when added in order, each one
strictly closer to the owner than every peer present at its insertion — the
shape of an insertion sequence pre-sorted from furthest to closest. -/
def allAcceptedDescending : RoutingTable → List NodeInfo → Bool
  | _, [] => true
  | rt, n :: rest =>
    (AddNode rt n).1 &&
    rt.nodes.all (fun p => rt.kNodeId ^^^ n.node_id < rt.kNodeId ^^^ p.node_id) &&
    allAcceptedDescending (AddNode rt n).2 rest

/-- A 64-peer family for the group-change scenario: owner 0, ids the powers of
two from 2 to the 63rd power down to 2 to the 0th, i.e. pre-sorted from
furthest to closest by XOR distance to the owner, all in distinct buckets. -/
def descendingIds : List NodeId := (List.range 64).map (fun i => 2 ^ (63 - i))

/-- Wrap an id as a peer with a valid public key. -/
def mkPeer (i : NodeId) : NodeInfo := ⟨i, true⟩

/-- The descending 64-peer family as insertable records. -/
def descendingPeers : List NodeInfo := descendingIds.map mkPeer

/-- Modelled from the spec: one registration of the pending-response registry
(timer.cc is not in the tree) — expected and received counts plus whether the
registration has reached its terminal state. -/
structure TimerTask where
  expected_count : Nat
  received_count : Nat
  task_done : Bool
deriving DecidableEq, Repr

/-- An event delivered to a pending-response registration: a real response
payload, or the deadline firing. -/
inductive TimerEv where
  | response
  | deadline
deriving DecidableEq, Repr

/-- Modelled from the spec: Timer::AddTask — a fresh registration expecting
the given number of responses. -/
def AddTask (expected_responses : Nat) : TimerTask :=
  ⟨expected_responses, 0, false⟩

/-- Modelled from the spec: one event against a registration.  Returns the new
state, whether the callback fired with a real payload, and whether it fired
with the timeout marker.  A payload on a terminal or fully-served registration
is dropped silently; the deadline on a terminal registration is a no-op; the
deadline with responses still outstanding fires the timeout marker once and
ends the registration. -/
def stepTask (s : TimerTask) : TimerEv → TimerTask × Bool × Bool
  | .response =>
    if s.task_done || decide (s.expected_count ≤ s.received_count) then (s, false, false)
    else
      ({ s with received_count := s.received_count + 1,
                task_done := decide (s.expected_count ≤ s.received_count + 1) },
       true, false)
  | .deadline =>
    if s.task_done then (s, false, false)
    else if s.expected_count ≤ s.received_count then
      ({ s with task_done := true }, false, false)
    else
      ({ s with task_done := true }, false, true)

/-- Run a registration over an event sequence, totalling the real-payload and
timeout-marker callback invocations. -/
def runTask : TimerTask → List TimerEv → TimerTask × Nat × Nat
  | s, [] => (s, 0, 0)
  | s, e :: rest =>
    let st := stepTask s e
    let rec2 := runTask st.1 rest
    (rec2.1, (if st.2.1 then 1 else 0) + rec2.2.1, (if st.2.2 then 1 else 0) + rec2.2.2)

/-- The ids SendGroup fans the message out to: the GROUP_SIZE table peers
closest to the destination, the destination id itself never selected. -/
def SendGroupRecipients (rt : RoutingTable) (destination : NodeId) : List NodeId :=
  (sortFromTarget destination ((peerIds rt).filter (fun i => i != destination))).take
    Parameters.node_group_size

/-- Modelled from the spec: Routing::SendGroup (routing.cc is not in the tree)
— the recipient fan-out together with the expected-response count registered
for the message. -/
def SendGroup (rt : RoutingTable) (destination : NodeId) : List NodeId × Nat :=
  (SendGroupRecipients rt destination, Parameters.node_group_size)

theorem xor_left_inj (t a b : NodeId) (h : t ^^^ a = t ^^^ b) : a = b := by
  have h2 := congrArg (t ^^^ ·) h
  simpa [Nat.xor_cancel_left] using h2

/-- C9: adding a peer with an empty public key fails and leaves the table
unchanged. -/
theorem addNode_invalid_key_rejected (rt : RoutingTable) (n : NodeInfo)
    (h : n.public_key_valid = false) : AddNode rt n = (false, rt) := by
  unfold AddNode AddOrCheckNode
  simp [h]

/-- Witness for C9 at a concrete table and key-less peer. -/
theorem addNode_invalid_key_rejected_witness :
    (NodeInfo.mk 5 false).public_key_valid = false ∧
    AddNode (emptyRoutingTable 0) (NodeInfo.mk 5 false) = (false, emptyRoutingTable 0) :=
  ⟨rfl, addNode_invalid_key_rejected (emptyRoutingTable 0) (NodeInfo.mk 5 false) rfl⟩

/-- C4: CheckNode never mutates the table, and it answers true exactly when an
immediate AddNode of the same candidate carrying a valid public key would be
accepted. -/
theorem checkNode_iff_addNode (rt : RoutingTable) (n : NodeInfo) :
    (AddOrCheckNode rt n false).2 = rt ∧
    CheckNode rt n = (AddNode rt { n with public_key_valid := true }).1 := by
  constructor
  · unfold AddOrCheckNode
    repeat' split
    all_goals simp_all
  · have hadmit : admitNode rt { n with public_key_valid := true } = admitNode rt n := rfl
    unfold CheckNode AddNode AddOrCheckNode
    rw [if_neg (c := false = true ∧ n.public_key_valid = false) (by simp),
      if_neg (c := true = true ∧
        ({ n with public_key_valid := true } : NodeInfo).public_key_valid = false) (by simp),
      hadmit]
    split
    all_goals rfl

/-- C3: whenever some peer passes the exclusion filters, GetClosestNode
returns a qualifying peer at minimal XOR distance to the target. -/
theorem getClosestNode_minimal (rt : RoutingTable) (t : NodeId) (excl : List NodeId)
    (ig : Bool) (h : ∃ p ∈ rt.nodes, nodeQualifies t excl ig p = true) :
    ∃ m, GetClosestNode rt t excl ig = some m ∧ m ∈ rt.nodes ∧
      nodeQualifies t excl ig m = true ∧
      ∀ p ∈ rt.nodes, nodeQualifies t excl ig p = true →
        t ^^^ m.node_id ≤ t ^^^ p.node_id := by
  obtain ⟨p, hp, hq⟩ := h
  have hf : p ∈ rt.nodes.filter (nodeQualifies t excl ig) := List.mem_filter.mpr ⟨hp, hq⟩
  cases hm : (rt.nodes.filter (nodeQualifies t excl ig)).argmin (fun n => t ^^^ n.node_id) with
  | none =>
      rw [List.argmin_eq_none.mp hm] at hf
      exact absurd hf (List.not_mem_nil p)
  | some m =>
      have hmem : m ∈ rt.nodes.filter (nodeQualifies t excl ig) := List.argmin_mem hm
      refine ⟨m, hm, (List.mem_filter.mp hmem).1, (List.mem_filter.mp hmem).2, ?_⟩
      intro q hq1 hq2
      exact List.le_of_mem_argmin (f := fun n => t ^^^ n.node_id)
        (List.mem_filter.mpr ⟨hq1, hq2⟩) hm

/-- Witness for C3: a two-peer table where peer 3 is the closest qualifier. -/
theorem getClosestNode_minimal_witness :
    (∃ p ∈ (RoutingTable.mk 0 [mkPeer 3, mkPeer 12]).nodes,
      nodeQualifies 1 [] false p = true) ∧
    (∃ m, GetClosestNode (RoutingTable.mk 0 [mkPeer 3, mkPeer 12]) 1 [] false = some m ∧
      m ∈ (RoutingTable.mk 0 [mkPeer 3, mkPeer 12]).nodes ∧
      nodeQualifies 1 [] false m = true ∧
      ∀ p ∈ (RoutingTable.mk 0 [mkPeer 3, mkPeer 12]).nodes,
        nodeQualifies 1 [] false p = true → 1 ^^^ m.node_id ≤ 1 ^^^ p.node_id) :=
  ⟨⟨mkPeer 3, by decide⟩,
   getClosestNode_minimal (RoutingTable.mk 0 [mkPeer 3, mkPeer 12]) 1 [] false
     ⟨mkPeer 3, by decide⟩⟩

/-- C8: GetClosestNode returns the empty sentinel exactly in the no-qualifier
cases: empty table (either ignore-exact-match flag), the single-peer table
queried at that peer's own id with ignore-exact-match set, and an exclude set
covering every peer. -/
theorem getClosestNode_sentinel_cases :
    (∀ own t excl ig, GetClosestNode (emptyRoutingTable own) t excl ig = none) ∧
    (∀ own p, GetClosestNode (RoutingTable.mk own [p]) p.node_id [] true = none) ∧
    (∀ rt t excl ig, (∀ i ∈ peerIds rt, i ∈ excl) →
      GetClosestNode rt t excl ig = none) := by
  refine ⟨?_, ?_, ?_⟩
  · intro own t excl ig
    simp [GetClosestNode, emptyRoutingTable]
  · intro own p
    simp [GetClosestNode, nodeQualifies]
  · intro rt t excl ig h
    unfold GetClosestNode
    have hnil : rt.nodes.filter (nodeQualifies t excl ig) = [] := by
      rw [List.filter_eq_nil_iff]
      intro n hn
      have hmem : n.node_id ∈ excl := h n.node_id (List.mem_map_of_mem NodeInfo.node_id hn)
      simp only [nodeQualifies, Bool.and_eq_true, Bool.not_eq_true', ne_eq]
      intro hq
      have hc : excl.contains n.node_id = true := List.elem_eq_true_of_mem hmem
      rw [hq.1] at hc
      exact Bool.noConfusion hc
    rw [hnil]
    simp

/-- Witness for C8's excluded-everything clause at a concrete table. -/
theorem getClosestNode_sentinel_cases_witness :
    (∀ i ∈ peerIds (RoutingTable.mk 0 [mkPeer 3, mkPeer 5]), i ∈ [3, 5]) ∧
    GetClosestNode (RoutingTable.mk 0 [mkPeer 3, mkPeer 5]) 3 [3, 5] false = none :=
  ⟨by decide,
   getClosestNode_sentinel_cases.2.2 (RoutingTable.mk 0 [mkPeer 3, mkPeer 5]) 3 [3, 5] false
     (by decide)⟩

/-- C10: the checked two-argument group-range query reports the exception
exactly when the queried id is not the owner's own id and the owner is not
itself among the GROUP_SIZE ids closest to the group id; in every other case
it returns the group-range answer without an exception. -/
theorem groupRangeChecked_throw_condition (rt : RoutingTable) (g n : NodeId) :
    (IsNodeIdInGroupRangeChecked rt g n = .error () ↔
      n ≠ rt.kNodeId ∧ rt.kNodeId ∉ closestToGroup rt g) ∧
    (¬(n ≠ rt.kNodeId ∧ rt.kNodeId ∉ closestToGroup rt g) →
      IsNodeIdInGroupRangeChecked rt g n = .ok (IsNodeIdInGroupRange rt g n)) := by
  unfold IsNodeIdInGroupRangeChecked ownInGroup
  by_cases h : n ≠ rt.kNodeId ∧ rt.kNodeId ∉ closestToGroup rt g
  · rw [if_pos (by simpa [decide_eq_false_iff_not] using h)]
    exact ⟨⟨fun _ => h, fun _ => rfl⟩, fun hc => absurd h hc⟩
  · rw [if_neg (by simpa [decide_eq_false_iff_not] using h)]
    exact ⟨⟨fun he => absurd he (by simp), fun hc => absurd hc h⟩, fun _ => rfl⟩

/-- Witness for C10's no-exception clause: querying the owner's own id. -/
theorem groupRangeChecked_throw_condition_witness :
    ¬((0 : NodeId) ≠ (RoutingTable.mk 0 [mkPeer 3]).kNodeId ∧
      (RoutingTable.mk 0 [mkPeer 3]).kNodeId ∉ closestToGroup (RoutingTable.mk 0 [mkPeer 3]) 5) ∧
    IsNodeIdInGroupRangeChecked (RoutingTable.mk 0 [mkPeer 3]) 5 0 =
      .ok (IsNodeIdInGroupRange (RoutingTable.mk 0 [mkPeer 3]) 5 0) :=
  ⟨by decide,
   (groupRangeChecked_throw_condition (RoutingTable.mk 0 [mkPeer 3]) 5 0).2 (by decide)⟩

theorem admitNode_true_not_self (rt : RoutingTable) (n : NodeInfo)
    (h : admitNode rt n = true) : n.node_id ≠ rt.kNodeId := by
  intro hc
  unfold admitNode at h
  rw [if_pos hc] at h
  exact Bool.noConfusion h

theorem admitNode_true_not_mem (rt : RoutingTable) (n : NodeInfo)
    (h : admitNode rt n = true) : n.node_id ∉ peerIds rt := by
  intro hc
  unfold admitNode at h
  by_cases h1 : n.node_id = rt.kNodeId
  · rw [if_pos h1] at h
    exact Bool.noConfusion h
  · rw [if_neg h1, if_pos hc] at h
    exact Bool.noConfusion h

theorem peerIds_insertPeer (rt : RoutingTable) (n : NodeInfo) :
    peerIds (insertPeer rt n) = n.node_id :: peerIds rt := rfl

theorem insertPeer_preserves (rt : RoutingTable) (n : NodeInfo)
    (hlen : rt.nodes.length < Parameters.max_routing_table_size)
    (hnodup : (peerIds rt).Nodup) (hself : rt.kNodeId ∉ peerIds rt)
    (hns : n.node_id ∉ peerIds rt) (hno : n.node_id ≠ rt.kNodeId) :
    TableInvariant (insertPeer rt n) := by
  refine ⟨?_, ?_, ?_⟩
  · simpa [insertPeer] using hlen
  · rw [peerIds_insertPeer]
    exact List.nodup_cons.mpr ⟨hns, hnodup⟩
  · rw [peerIds_insertPeer]
    intro hc
    rcases List.mem_cons.mp hc with hc | hc
    · exact hno hc.symm
    · exact hself hc

theorem evictInsert_preserves (rt : RoutingTable) (n : NodeInfo) (e : NodeInfo)
    (hen : e ∈ rt.nodes)
    (hlen : rt.nodes.length ≤ Parameters.max_routing_table_size)
    (hnodup : (peerIds rt).Nodup) (hself : rt.kNodeId ∉ peerIds rt)
    (hns : n.node_id ∉ peerIds rt) (hno : n.node_id ≠ rt.kNodeId) :
    TableInvariant (insertPeer (removePeer rt e) n) := by
  have hsub : ((rt.nodes.erase e).map NodeInfo.node_id).Sublist (peerIds rt) :=
    (rt.nodes.erase_sublist e).map NodeInfo.node_id
  refine ⟨?_, ?_, ?_⟩
  · have h1 : (rt.nodes.erase e).length = rt.nodes.length - 1 :=
      List.length_erase_of_mem hen
    have h2 : 1 ≤ rt.nodes.length := List.length_pos.mpr (List.ne_nil_of_mem hen)
    simp only [insertPeer, removePeer, List.length_cons, h1]
    omega
  · rw [peerIds_insertPeer]
    refine List.nodup_cons.mpr ⟨?_, hnodup.sublist hsub⟩
    intro hc
    exact hns (hsub.subset hc)
  · rw [peerIds_insertPeer]
    intro hc
    rcases List.mem_cons.mp hc with hc | hc
    · exact hno hc.symm
    · exact hself (hsub.subset hc)

theorem addNode_preserves_invariant (rt : RoutingTable) (n : NodeInfo)
    (h : TableInvariant rt) : TableInvariant (AddNode rt n).2 := by
  obtain ⟨hlen, hnodup, hself⟩ := h
  unfold AddNode AddOrCheckNode
  by_cases hkey : true = true ∧ n.public_key_valid = false
  · rw [if_pos hkey]
    exact ⟨hlen, hnodup, hself⟩
  rw [if_neg hkey]
  by_cases hadm : admitNode rt n = true
  · rw [if_pos hadm]
    have hns : n.node_id ∉ peerIds rt := admitNode_true_not_mem rt n hadm
    have hno : n.node_id ≠ rt.kNodeId := admitNode_true_not_self rt n hadm
    rw [if_pos rfl]
    by_cases hl : rt.nodes.length < Parameters.max_routing_table_size
    · rw [if_pos hl]
      exact insertPeer_preserves rt n hl hnodup hself hns hno
    · rw [if_neg hl]
      cases hev : evicteeOf rt n with
      | none =>
          simp only
          exact ⟨hlen, hnodup, hself⟩
      | some e =>
          simp only
          have he : e ∈ evictionCandidates rt n := List.argmax_mem hev
          have hen : e ∈ rt.nodes := (List.mem_filter.mp he).1
          exact evictInsert_preserves rt n e hen hlen hnodup hself hns hno
  · rw [if_neg hadm]
    exact ⟨hlen, hnodup, hself⟩

theorem dropNode_preserves_invariant (rt : RoutingTable) (i : NodeId)
    (h : TableInvariant rt) : TableInvariant (DropNode rt i) := by
  obtain ⟨hlen, hnodup, hself⟩ := h
  have hsub : ((rt.nodes.filter (fun p => p.node_id != i)).map NodeInfo.node_id).Sublist
      (peerIds rt) :=
    (rt.nodes.filter_sublist (p := fun p => p.node_id != i)).map NodeInfo.node_id
  refine ⟨?_, ?_, ?_⟩
  · exact le_trans (by simpa [DropNode, peerIds] using hsub.length_le) hlen
  · exact hnodup.sublist hsub
  · intro hc
    exact hself (hsub.subset hc)

theorem applyOp_preserves_invariant (rt : RoutingTable) (op : TableOp)
    (h : TableInvariant rt) : TableInvariant (applyOp rt op) := by
  cases op with
  | add n => exact addNode_preserves_invariant rt n h
  | drop i => exact dropNode_preserves_invariant rt i h

theorem foldl_preserves_invariant :
    ∀ (ops : List TableOp) (rt : RoutingTable), TableInvariant rt →
      TableInvariant (List.foldl applyOp rt ops)
  | [], _, h => h
  | op :: rest, rt, h => by
    rw [List.foldl_cons]
    exact foldl_preserves_invariant rest (applyOp rt op) (applyOp_preserves_invariant rt op h)

/-- C2: every sequence of add and drop operations from the empty table keeps
the size within MAX_TABLE_SIZE, the ids free of duplicates, and the owner's
own id out of the table. -/
theorem routingTable_invariant_holds (own : NodeId) (ops : List TableOp) :
    TableInvariant (List.foldl applyOp (emptyRoutingTable own) ops) :=
  foldl_preserves_invariant ops (emptyRoutingTable own)
    ⟨by simp [emptyRoutingTable, Parameters.max_routing_table_size],
     by simp [emptyRoutingTable, peerIds],
     by simp [emptyRoutingTable, peerIds]⟩

theorem countCloserTo_perm (t : NodeId) (l l2 : List NodeId) (x : NodeId)
    (h : List.Perm l l2) : countCloserTo t l x = countCloserTo t l2 x :=
  (h.filter (fun y => decide (t ^^^ y < t ^^^ x))).length_eq

theorem mem_take_sorted_iff (t : NodeId) (s : List NodeId)
    (hs : List.Sorted (distLE t) s) :
    ∀ (k : Nat) (x : NodeId), (x ∈ s.take k ↔ x ∈ s ∧ countCloserTo t s x < k) := by
  revert hs
  induction s with
  | nil =>
      intro _ k x
      simp [countCloserTo]
  | cons a tl ih =>
      intro hs k x
      obtain ⟨ha, htl⟩ := List.sorted_cons.mp hs
      cases k with
      | zero => simp
      | succ k =>
          rw [List.take_succ_cons]
          by_cases hxa : x = a
          · subst hxa
            have hcnt : countCloserTo t (x :: tl) x = 0 := by
              unfold countCloserTo
              rw [List.filter_cons, if_neg (by simp)]
              rw [List.length_eq_zero, List.filter_eq_nil_iff]
              intro b hb
              simpa using Nat.not_lt.mpr (ha b hb)
            simp [hcnt]
          · have hmemtl : (x ∈ a :: tl) ↔ x ∈ tl := by simp [List.mem_cons, hxa]
            have hlhs : (x ∈ a :: tl.take k) ↔ x ∈ tl.take k := by
              simp [List.mem_cons, hxa]
            rw [hlhs, hmemtl, ih htl k x]
            by_cases hxtl : x ∈ tl
            · have hax : t ^^^ a < t ^^^ x := by
                rcases Nat.lt_or_ge (t ^^^ a) (t ^^^ x) with h | h
                · exact h
                · exact absurd (xor_left_inj t a x (Nat.le_antisymm (ha x hxtl) h))
                    (fun he => hxa he.symm)
              have hcnt : countCloserTo t (a :: tl) x = countCloserTo t tl x + 1 := by
                unfold countCloserTo
                rw [List.filter_cons, if_pos (by simpa using hax)]
                simp [Nat.add_comm]
              rw [hcnt]
              constructor
              · rintro ⟨h1, h2⟩
                exact ⟨h1, Nat.succ_lt_succ h2⟩
              · rintro ⟨h1, h2⟩
                exact ⟨h1, Nat.lt_of_succ_lt_succ h2⟩
            · constructor
              · rintro ⟨h1, _⟩
                exact absurd h1 hxtl
              · rintro ⟨h1, _⟩
                exact absurd h1 hxtl

/-- C1: the group-range predicate coincides with the reference definition of
the claim: out-of-range at the owner's id or at the group id itself; in-range
for the GROUP_SIZE ids closest to the group id known to the table, the owner
included; proximal within the owner's distance to its furthest close peer;
out-of-range beyond it. -/
theorem groupRange_matches_reference (rt : RoutingTable) (g n : NodeId) :
    IsNodeIdInGroupRange rt g n = groupRangeReference rt g n := by
  have hs := List.sorted_insertionSort (distLE g) (rt.kNodeId :: peerIds rt)
  have hperm := List.perm_insertionSort (distLE g) (rt.kNodeId :: peerIds rt)
  have hiff : (n ∈ closestToGroup rt g) ↔
      (n ∈ rt.kNodeId :: peerIds rt ∧
        countCloserTo g (rt.kNodeId :: peerIds rt) n < Parameters.node_group_size) := by
    unfold closestToGroup sortFromTarget
    rw [mem_take_sorted_iff g _ hs Parameters.node_group_size n, hperm.mem_iff,
      countCloserTo_perm g _ _ n hperm]
  unfold IsNodeIdInGroupRange groupRangeReference
  by_cases h1 : g = rt.kNodeId ∨ n = g
  · rw [if_pos h1, if_pos h1]
  · rw [if_neg h1, if_neg h1]
    by_cases h2 : n ∈ closestToGroup rt g
    · rw [if_pos h2, if_pos (hiff.mp h2)]
    · rw [if_neg h2, if_neg (fun hc => h2 (hiff.mpr hc))]

/-- C7: SendGroup registers GROUP_SIZE expected responses and fans out to the
GROUP_SIZE table peers closest to the destination: every recipient is a table
peer different from the destination, every selected recipient is at least as
close to the destination as every unselected qualifying peer, and with at
least GROUP_SIZE qualifying peers exactly GROUP_SIZE distinct recipients are
selected. -/
theorem sendGroup_fanout (rt : RoutingTable) (d : NodeId) :
    (SendGroup rt d).2 = Parameters.node_group_size ∧
    (∀ x ∈ SendGroupRecipients rt d, x ≠ d ∧ x ∈ peerIds rt) ∧
    (∀ x ∈ SendGroupRecipients rt d, ∀ y ∈ peerIds rt, y ≠ d →
      y ∉ SendGroupRecipients rt d → d ^^^ x ≤ d ^^^ y) ∧
    (Parameters.node_group_size ≤ ((peerIds rt).filter (fun i => i != d)).length →
      (SendGroupRecipients rt d).length = Parameters.node_group_size) ∧
    ((peerIds rt).Nodup → (SendGroupRecipients rt d).Nodup) := by
  have hs := List.sorted_insertionSort (distLE d) ((peerIds rt).filter (fun i => i != d))
  have hperm := List.perm_insertionSort (distLE d) ((peerIds rt).filter (fun i => i != d))
  refine ⟨rfl, ?_, ?_, ?_, ?_⟩
  · intro x hx
    have hxs : x ∈ List.insertionSort (distLE d) ((peerIds rt).filter (fun i => i != d)) :=
      List.take_subset Parameters.node_group_size _ hx
    have hxq : x ∈ (peerIds rt).filter (fun i => i != d) := hperm.mem_iff.mp hxs
    obtain ⟨hxp, hxd⟩ := List.mem_filter.mp hxq
    exact ⟨by simpa using hxd, hxp⟩
  · intro x hx y hy hyd hyn
    have hyq : y ∈ (peerIds rt).filter (fun i => i != d) :=
      List.mem_filter.mpr ⟨hy, by simpa using hyd⟩
    have hys : y ∈ List.insertionSort (distLE d) ((peerIds rt).filter (fun i => i != d)) :=
      hperm.mem_iff.mpr hyq
    have hsplit := List.take_append_drop Parameters.node_group_size
      (List.insertionSort (distLE d) ((peerIds rt).filter (fun i => i != d)))
    have hpw : List.Pairwise (distLE d)
        ((List.insertionSort (distLE d) ((peerIds rt).filter (fun i => i != d))).take
            Parameters.node_group_size ++
          (List.insertionSort (distLE d) ((peerIds rt).filter (fun i => i != d))).drop
            Parameters.node_group_size) := by
      rw [hsplit]
      exact hs
    have hyd2 : y ∈ (List.insertionSort (distLE d)
        ((peerIds rt).filter (fun i => i != d))).drop Parameters.node_group_size := by
      rcases (List.mem_append.mp (by rw [hsplit]; exact hys)) with h | h
      · exact absurd h hyn
      · exact h
    exact (List.pairwise_append.mp hpw).2.2 x hx y hyd2
  · intro hq
    unfold SendGroupRecipients sortFromTarget
    rw [List.length_take, List.length_insertionSort]
    exact Nat.min_eq_left hq
  · intro hnd
    have hqnd : ((peerIds rt).filter (fun i => i != d)).Nodup := hnd.filter _
    have hsnd : (List.insertionSort (distLE d)
        ((peerIds rt).filter (fun i => i != d))).Nodup := hperm.nodup_iff.mpr hqnd
    exact hsnd.sublist (List.take_sublist _ _)

/-- Witness for C7: a five-peer table containing the destination id 9 itself;
the fan-out picks four distinct peers other than 9. -/
theorem sendGroup_fanout_witness :
    (SendGroupRecipients (RoutingTable.mk 0 [mkPeer 3, mkPeer 5, mkPeer 9, mkPeer 17, mkPeer 33]) 9).length =
      Parameters.node_group_size ∧
    (SendGroupRecipients (RoutingTable.mk 0 [mkPeer 3, mkPeer 5, mkPeer 9, mkPeer 17, mkPeer 33]) 9).Nodup :=
  ⟨(sendGroup_fanout (RoutingTable.mk 0 [mkPeer 3, mkPeer 5, mkPeer 9, mkPeer 17, mkPeer 33]) 9).2.2.2.1
      (by decide),
   (sendGroup_fanout (RoutingTable.mk 0 [mkPeer 3, mkPeer 5, mkPeer 9, mkPeer 17, mkPeer 33]) 9).2.2.2.2
      (by decide)⟩

theorem runTask_cons (s : TimerTask) (e : TimerEv) (rest : List TimerEv) :
    runTask s (e :: rest) =
      ((runTask (stepTask s e).1 rest).1,
       (if (stepTask s e).2.1 then 1 else 0) + (runTask (stepTask s e).1 rest).2.1,
       (if (stepTask s e).2.2 then 1 else 0) + (runTask (stepTask s e).1 rest).2.2) := rfl

theorem stepTask_response_drop (s : TimerTask)
    (h : (s.task_done || decide (s.expected_count ≤ s.received_count)) = true) :
    stepTask s TimerEv.response = (s, false, false) := by
  simp only [stepTask]
  rw [if_pos h]

theorem stepTask_response_invoke (s : TimerTask)
    (h : (s.task_done || decide (s.expected_count ≤ s.received_count)) = false) :
    stepTask s TimerEv.response =
      (⟨s.expected_count, s.received_count + 1,
        decide (s.expected_count ≤ s.received_count + 1)⟩, true, false) := by
  simp only [stepTask]
  rw [if_neg (by simp [h])]

theorem stepTask_deadline_done (s : TimerTask) (h : s.task_done = true) :
    stepTask s TimerEv.deadline = (s, false, false) := by
  simp only [stepTask]
  rw [if_pos (c := s.task_done = true) h]

theorem stepTask_deadline_served (s : TimerTask) (h : s.task_done = false)
    (h2 : s.expected_count ≤ s.received_count) :
    stepTask s TimerEv.deadline =
      (⟨s.expected_count, s.received_count, true⟩, false, false) := by
  simp only [stepTask]
  rw [if_neg (c := s.task_done = true) (by simp [h]), if_pos h2]

theorem stepTask_deadline_fire (s : TimerTask) (h : s.task_done = false)
    (h2 : ¬ s.expected_count ≤ s.received_count) :
    stepTask s TimerEv.deadline =
      (⟨s.expected_count, s.received_count, true⟩, false, true) := by
  simp only [stepTask]
  rw [if_neg (c := s.task_done = true) (by simp [h]), if_neg h2]

theorem runTask_done (evs : List TimerEv) : ∀ (ec rc : Nat),
    runTask (⟨ec, rc, true⟩ : TimerTask) evs = (⟨ec, rc, true⟩, 0, 0) := by
  induction evs with
  | nil => intro ec rc; rfl
  | cons e rest ih =>
      intro ec rc
      cases e with
      | response =>
          rw [runTask_cons, stepTask_response_drop _ (by simp), ih]
          rfl
      | deadline =>
          rw [runTask_cons, stepTask_deadline_done _ rfl, ih]
          rfl

theorem runTask_real_le (evs : List TimerEv) : ∀ s : TimerTask,
    (runTask s evs).2.1 ≤ s.expected_count - s.received_count := by
  induction evs with
  | nil => intro s; simp [runTask]
  | cons e rest ih =>
      intro s
      cases e with
      | response =>
          by_cases hc : (s.task_done || decide (s.expected_count ≤ s.received_count)) = true
          · rw [runTask_cons, stepTask_response_drop s hc]
            simpa using ih s
          · have hc2 := Bool.not_eq_true _ |>.mp hc
            have hlt : s.received_count < s.expected_count := by
              rcases Bool.or_eq_false_iff.mp hc2 with ⟨_, h2⟩
              exact Nat.not_le.mp (of_decide_eq_false h2)
            rw [runTask_cons, stepTask_response_invoke s hc2]
            have hrec := ih ⟨s.expected_count, s.received_count + 1,
              decide (s.expected_count ≤ s.received_count + 1)⟩
            simp at hrec ⊢
            omega
      | deadline =>
          by_cases hd : s.task_done = true
          · rw [runTask_cons, stepTask_deadline_done s hd]
            simpa using ih s
          · have hd2 := Bool.not_eq_true _ |>.mp hd
            by_cases h2 : s.expected_count ≤ s.received_count
            · rw [runTask_cons, stepTask_deadline_served s hd2 h2]
              have hrec := ih ⟨s.expected_count, s.received_count, true⟩
              simp at hrec ⊢
              omega
            · rw [runTask_cons, stepTask_deadline_fire s hd2 h2]
              have hrec := ih ⟨s.expected_count, s.received_count, true⟩
              simp at hrec ⊢
              omega

theorem runTask_timeout_le_one (evs : List TimerEv) : ∀ s : TimerTask,
    (runTask s evs).2.2 ≤ 1 ∧ (s.task_done = true → (runTask s evs).2.2 = 0) := by
  induction evs with
  | nil => intro s; simp [runTask]
  | cons e rest ih =>
      intro s
      cases e with
      | response =>
          by_cases hc : (s.task_done || decide (s.expected_count ≤ s.received_count)) = true
          · rw [runTask_cons, stepTask_response_drop s hc]
            refine ⟨by simpa using (ih s).1, fun hd => by simpa using (ih s).2 hd⟩
          · have hc2 := Bool.not_eq_true _ |>.mp hc
            have hd : s.task_done = false := (Bool.or_eq_false_iff.mp hc2).1
            rw [runTask_cons, stepTask_response_invoke s hc2]
            refine ⟨by simpa using (ih _).1, fun hdt => by rw [hd] at hdt; exact Bool.noConfusion hdt⟩
      | deadline =>
          by_cases hdc : s.task_done = true
          · rw [runTask_cons, stepTask_deadline_done s hdc]
            refine ⟨by simpa using (ih s).1, fun _ => by simpa using (ih s).2 hdc⟩
          · have hd2 := Bool.not_eq_true _ |>.mp hdc
            have hz : (runTask (⟨s.expected_count, s.received_count, true⟩ : TimerTask) rest).2.2 = 0 :=
              (ih ⟨s.expected_count, s.received_count, true⟩).2 rfl
            by_cases h2 : s.expected_count ≤ s.received_count
            · rw [runTask_cons, stepTask_deadline_served s hd2 h2]
              refine ⟨by simp [hz], fun hdt => by rw [hd2] at hdt; exact Bool.noConfusion hdt⟩
            · rw [runTask_cons, stepTask_deadline_fire s hd2 h2]
              refine ⟨by simp [hz], fun hdt => by rw [hd2] at hdt; exact Bool.noConfusion hdt⟩

theorem runTask_append (l1 l2 : List TimerEv) : ∀ s,
    runTask s (l1 ++ l2) =
      ((runTask (runTask s l1).1 l2).1,
       (runTask s l1).2.1 + (runTask (runTask s l1).1 l2).2.1,
       (runTask s l1).2.2 + (runTask (runTask s l1).1 l2).2.2) := by
  induction l1 with
  | nil => intro s; simp [runTask]
  | cons e rest ih =>
      intro s
      rw [List.cons_append, runTask_cons, runTask_cons, ih (stepTask s e).1]
      simp [Nat.add_assoc]

theorem runTask_responses (pre : List TimerEv) : ∀ (ec rc : Nat),
    TimerEv.deadline ∉ pre → rc + pre.length < ec →
    (runTask (⟨ec, rc, false⟩ : TimerTask) pre).1 = ⟨ec, rc + pre.length, false⟩ ∧
    (runTask (⟨ec, rc, false⟩ : TimerTask) pre).2.2 = 0 := by
  induction pre with
  | nil => intro ec rc _ _; simp [runTask]
  | cons e rest ih =>
      intro ec rc hpre hlt
      cases e with
      | deadline => exact absurd (List.mem_cons_self _ _) hpre
      | response =>
          have hlen : rest.length + 1 = (TimerEv.response :: rest).length := by
            simp
          have h1 : ¬ ec ≤ rc := by
            rw [← hlen] at hlt
            omega
          have h2 : ¬ ec ≤ rc + 1 := by
            rw [← hlen] at hlt
            omega
          have hstep : stepTask ⟨ec, rc, false⟩ TimerEv.response =
              (⟨ec, rc + 1, false⟩, true, false) := by
            rw [stepTask_response_invoke _ (by simp [h1])]
            simp [decide_eq_false h2]
          have hrest := ih ec (rc + 1)
            (fun hc => hpre (List.mem_cons_of_mem _ hc))
            (by rw [← hlen] at hlt; omega)
          rw [runTask_cons, hstep]
          refine ⟨?_, by simpa using hrest.2⟩
          simp only
          rw [hrest.1, TimerTask.mk.injEq]
          refine ⟨rfl, ?_, rfl⟩
          simp only [List.length_cons]
          omega

/-- C5: a registration expecting n responses fires its callback at most n
times with real payloads and at most once with the timeout marker, hence at
most n + 1 times in total; when the deadline arrives while responses are
still outstanding the timeout marker fires exactly once; and a payload
reaching a terminal registration causes no invocation at all. -/
theorem timer_callback_bounds (n : Nat) (evs : List TimerEv) :
    (runTask (AddTask n) evs).2.1 ≤ n ∧
    (runTask (AddTask n) evs).2.2 ≤ 1 ∧
    (runTask (AddTask n) evs).2.1 + (runTask (AddTask n) evs).2.2 ≤ n + 1 ∧
    (∀ pre post, evs = pre ++ TimerEv.deadline :: post → TimerEv.deadline ∉ pre →
      pre.length < n → (runTask (AddTask n) evs).2.2 = 1) ∧
    (∀ s : TimerTask, s.task_done = true → stepTask s TimerEv.response = (s, false, false)) := by
  have hr : (runTask (AddTask n) evs).2.1 ≤ n := by
    simpa [AddTask] using runTask_real_le evs (AddTask n)
  have ht : (runTask (AddTask n) evs).2.2 ≤ 1 := (runTask_timeout_le_one evs (AddTask n)).1
  refine ⟨hr, ht, by omega, ?_, ?_⟩
  · intro pre post hsplit hnd hlen
    subst hsplit
    rw [runTask_append]
    have hpre := runTask_responses pre n 0 hnd (by omega)
    have heq : AddTask n = (⟨n, 0, false⟩ : TimerTask) := rfl
    have hs1 : (runTask (AddTask n) pre).1 = ⟨n, pre.length, false⟩ := by
      rw [heq, hpre.1, TimerTask.mk.injEq]
      refine ⟨rfl, by omega, rfl⟩
    have ht0 : (runTask (AddTask n) pre).2.2 = 0 := by
      rw [heq]
      exact hpre.2
    rw [hs1, ht0]
    have hstep : stepTask ⟨n, pre.length, false⟩ TimerEv.deadline =
        (⟨n, pre.length, true⟩, false, true) :=
      stepTask_deadline_fire _ rfl (Nat.not_le.mpr hlen)
    rw [runTask_cons, hstep]
    simp only
    rw [runTask_done]
    rfl
  · intro s hd
    exact stepTask_response_drop s (by simp [hd])

/-- Witness for C5: two expected responses, one arriving before the deadline;
the timeout marker fires exactly once and the late payload is dropped. -/
theorem timer_callback_bounds_witness :
    (runTask (AddTask 2) [TimerEv.response, TimerEv.deadline, TimerEv.response]).2.2 = 1 ∧
    (runTask (AddTask 2) [TimerEv.response, TimerEv.deadline, TimerEv.response]).2.1 ≤ 2 :=
  ⟨(timer_callback_bounds 2 [TimerEv.response, TimerEv.deadline, TimerEv.response]).2.2.2.1
      [TimerEv.response] [TimerEv.response] rfl (by decide) (by decide),
   (timer_callback_bounds 2 [TimerEv.response, TimerEv.deadline, TimerEv.response]).1⟩

theorem admitNode_full_evictee (rt : RoutingTable) (n : NodeInfo)
    (h : admitNode rt n = true)
    (hfull : ¬ rt.nodes.length < Parameters.max_routing_table_size) :
    (evicteeOf rt n).isSome = true := by
  unfold admitNode at h
  by_cases h1 : n.node_id = rt.kNodeId
  · rw [if_pos h1] at h
    exact Bool.noConfusion h
  rw [if_neg h1] at h
  by_cases h2 : n.node_id ∈ peerIds rt
  · rw [if_pos h2] at h
    exact Bool.noConfusion h
  rw [if_neg h2] at h
  have hcond : ¬(rt.nodes.length < Parameters.max_routing_table_size ∧
      bucketCount rt n < Parameters.bucket_target_size) := fun hc => hfull hc.1
  rw [if_neg hcond] at h
  by_cases h3 : wouldBeInClosest rt n = true
  · rw [if_pos h3, if_neg hfull] at h
    exact h
  · rw [if_neg h3] at h
    exact Bool.noConfusion h

theorem addNode_accepted_peers (rt : RoutingTable) (n : NodeInfo)
    (h : (AddNode rt n).1 = true) :
    (AddNode rt n).2.kNodeId = rt.kNodeId ∧
    n.node_id ∉ peerIds rt ∧
    ∃ X : List NodeId, peerIds (AddNode rt n).2 = n.node_id :: X ∧
      ∀ y ∈ X, y ∈ peerIds rt := by
  by_cases hk : (true : Bool) = true ∧ n.public_key_valid = false
  · exfalso
    unfold AddNode AddOrCheckNode at h
    rw [if_pos hk] at h
    exact Bool.noConfusion h
  by_cases ha : admitNode rt n = true
  case neg =>
    exfalso
    unfold AddNode AddOrCheckNode at h
    rw [if_neg hk, if_neg ha] at h
    exact Bool.noConfusion h
  have hnm := admitNode_true_not_mem rt n ha
  have hupd : (AddNode rt n).2 =
      (if rt.nodes.length < Parameters.max_routing_table_size then insertPeer rt n
       else match evicteeOf rt n with
            | some e => insertPeer (removePeer rt e) n
            | none => rt) := by
    unfold AddNode AddOrCheckNode
    rw [if_neg hk, if_pos ha, if_pos rfl]
  by_cases hl : rt.nodes.length < Parameters.max_routing_table_size
  · rw [hupd, if_pos hl]
    exact ⟨rfl, hnm, peerIds rt, rfl, fun y hy => hy⟩
  · have hsome := admitNode_full_evictee rt n ha hl
    cases hev : evicteeOf rt n with
    | none =>
        rw [hev] at hsome
        exact Bool.noConfusion hsome
    | some e =>
        rw [hupd, if_neg hl, hev]
        refine ⟨rfl, hnm, (rt.nodes.erase e).map NodeInfo.node_id, rfl, ?_⟩
        intro y hy
        exact ((rt.nodes.erase_sublist e).map NodeInfo.node_id).subset hy

theorem mem_take_sort_of_closest (own : NodeId) (x : NodeId) (X : List NodeId)
    (hx : ∀ y ∈ X, own ^^^ x < own ^^^ y) :
    x ∈ (sortFromTarget own (x :: X)).take Parameters.closest_nodes_size := by
  have hperm : List.Perm (sortFromTarget own (x :: X)) (x :: X) :=
    List.perm_insertionSort (distLE own) (x :: X)
  have hsort : List.Sorted (distLE own) (sortFromTarget own (x :: X)) :=
    List.sorted_insertionSort (distLE own) (x :: X)
  cases hs : sortFromTarget own (x :: X) with
  | nil =>
      exfalso
      have hin : x ∈ sortFromTarget own (x :: X) := hperm.mem_iff.mpr (List.mem_cons_self x X)
      rw [hs] at hin
      exact List.not_mem_nil x hin
  | cons a tl =>
      rw [hs] at hperm hsort
      have hax : a = x := by
        by_contra hne
        have haX : a ∈ x :: X := hperm.subset (List.mem_cons_self a tl)
        have haX2 : a ∈ X := by
          rcases List.mem_cons.mp haX with hh | hh
          · exact absurd hh hne
          · exact hh
        have hxin : x ∈ a :: tl := hperm.mem_iff.mpr (List.mem_cons_self x X)
        have hxtl : x ∈ tl := by
          rcases List.mem_cons.mp hxin with hh | hh
          · exact absurd hh.symm hne
          · exact hh
        have hle : distLE own a x := (List.sorted_cons.mp hsort).1 x hxtl
        exact absurd (hx a haX2) (Nat.not_lt.mpr hle)
      subst hax
      rw [show Parameters.closest_nodes_size = 7 + 1 from rfl, List.take_succ_cons]
      exact List.mem_cons_self a _

theorem closeGroup_subset (rt : RoutingTable) (x : NodeId) (hx : x ∈ closeGroup rt) :
    x ∈ peerIds rt := by
  unfold closeGroup at hx
  have h1 := List.mem_toFinset.mp hx
  have h2 := List.take_subset _ _ h1
  exact (List.perm_insertionSort (distLE rt.kNodeId) (peerIds rt)).subset h2

theorem addNode_closest_changes_group (rt : RoutingTable) (n : NodeInfo)
    (hacc : (AddNode rt n).1 = true)
    (hcl : ∀ p ∈ rt.nodes, rt.kNodeId ^^^ n.node_id < rt.kNodeId ^^^ p.node_id) :
    closeGroup (AddNode rt n).2 ≠ closeGroup rt := by
  obtain ⟨hk, hnm, X, hX, hXsub⟩ := addNode_accepted_peers rt n hacc
  have hcl2 : ∀ y ∈ X, rt.kNodeId ^^^ n.node_id < rt.kNodeId ^^^ y := by
    intro y hy
    obtain ⟨p, hp, hpy⟩ := List.mem_map.mp (hXsub y hy)
    rw [← hpy]
    exact hcl p hp
  have hmem : n.node_id ∈ closeGroup (AddNode rt n).2 := by
    unfold closeGroup
    rw [hk, hX]
    exact List.mem_toFinset.mpr (mem_take_sort_of_closest rt.kNodeId n.node_id X hcl2)
  have hnot : n.node_id ∉ closeGroup rt := fun hc => hnm (closeGroup_subset rt _ hc)
  intro he
  rw [he] at hmem
  exact hnot hmem

/-- C6 as amended: inserting peers each strictly closer to the owner than all
already present — i.e. pre-sorted from furthest to closest — fires one
close-set notification per accepted insertion, so MAX_TABLE_SIZE insertions
fire MAX_TABLE_SIZE notifications, not CLOSEST_SIZE many. -/
theorem groupChange_descending_count :
    ∀ (ns : List NodeInfo) (rt : RoutingTable),
      allAcceptedDescending rt ns = true → notifyCount rt ns = ns.length := by
  intro ns
  induction ns with
  | nil => intro rt _; rfl
  | cons n rest ih =>
      intro rt h
      unfold allAcceptedDescending at h
      rw [Bool.and_eq_true, Bool.and_eq_true] at h
      obtain ⟨⟨hacc, hall⟩, hrest⟩ := h
      have hcl : ∀ p ∈ rt.nodes, rt.kNodeId ^^^ n.node_id < rt.kNodeId ^^^ p.node_id := by
        intro p hp
        exact of_decide_eq_true (List.all_eq_true.mp hall p hp)
      have hne := addNode_closest_changes_group rt n hacc hcl
      unfold notifyCount
      rw [if_neg hne, ih _ hrest]
      rw [List.length_cons]
      omega

/-- Witness for C6's amended theorem: three peers inserted furthest first, one
notification each. -/
theorem groupChange_descending_count_witness :
    allAcceptedDescending (emptyRoutingTable 0) [mkPeer 4, mkPeer 2, mkPeer 1] = true ∧
    notifyCount (emptyRoutingTable 0) [mkPeer 4, mkPeer 2, mkPeer 1] = 3 :=
  ⟨by decide,
   groupChange_descending_count [mkPeer 4, mkPeer 2, mkPeer 1] (emptyRoutingTable 0) (by decide)⟩

/-- C6 counterexample: the 64-peer family pre-sorted from furthest to closest
is fully accepted into the empty table, yet fires 64 close-set notifications
— MAX_TABLE_SIZE many, not CLOSEST_SIZE (8) as the claim states. -/
theorem groupChange_descending_counterexample :
    descendingPeers.length = Parameters.max_routing_table_size ∧
    List.Pairwise (fun a b => (0 : NodeId) ^^^ b.node_id < 0 ^^^ a.node_id) descendingPeers ∧
    allAcceptedDescending (emptyRoutingTable 0) descendingPeers = true ∧
    notifyCount (emptyRoutingTable 0) descendingPeers = Parameters.max_routing_table_size ∧
    notifyCount (emptyRoutingTable 0) descendingPeers ≠ Parameters.closest_nodes_size := by
  have hnc : notifyCount (emptyRoutingTable 0) descendingPeers =
      Parameters.max_routing_table_size := by decide
  refine ⟨by decide, by decide, by decide, hnc, ?_⟩
  rw [hnc]
  decide

end MaidSafe.Routing
